import Mathlib

/-!
Verification of the ChatPro messaging component (src/next.config.ts).

The component's state and operations are shallowly embedded: the React
state variables become fields of `AppState`, the callbacks
(`handleSendMessage`, `handleReaction`, `updateStatus`, the
`simulateTyping` interval body and its timeout callback) become pure
state-transition functions, and JavaScript `Record<string, T>` objects
(whose string keys preserve insertion order for non-integer-like keys)
become association lists with first-match lookup, in-place first-match
update, append-on-absent assignment and first-match deletion — exactly
the semantics of a JS object with unique keys.
-/

namespace ChatPro

/-- The status union type of the source:
`type UserStatus = 'online' | 'offline' | 'busy' | 'brb'`. -/
inductive UserStatus where
  | online
  | offline
  | busy
  | brb
deriving DecidableEq

/-- The string literal each `UserStatus` constructor stands for in the
TypeScript union type. -/
def statusString : UserStatus → String
  | .online => "online"
  | .offline => "offline"
  | .busy => "busy"
  | .brb => "brb"

/-- `type User = { id; name; avatar; status; lastActive? }`. -/
structure User where
  id : String
  name : String
  avatar : String
  status : UserStatus
  lastActive : Option String := none
deriving DecidableEq

/-- A JS `Record<string, string[]>` of reactions (emoji to reacting user
ids), as an insertion-ordered association list with unique keys. -/
abbrev ReactionMap := List (String × List String)

/-- `type Message = { id; senderId; content; timestamp; reactions; isUser? }`.
Timestamps are milliseconds since epoch, as produced by `Date.now()`;
an absent `isUser` field is `false`. -/
structure Message where
  id : String
  senderId : String
  content : String
  timestamp : Nat
  reactions : ReactionMap
  isUser : Bool := false
deriving DecidableEq

/-- `type TypingUser = { userId; name }`. -/
structure TypingUser where
  userId : String
  name : String
deriving DecidableEq

/-- JS object read `r[k]`: first (unique) matching key, `undefined` when
absent. -/
def recordGet {α : Type} : List (String × α) → String → Option α
  | [], _ => none
  | (k, v) :: rest, e => if k = e then some v else recordGet rest e

/-- JS object write `r[k] = v`: replace the value at the (unique)
matching key in place, or append the new key at the end when absent. -/
def recordSet {α : Type} : List (String × α) → String → α → List (String × α)
  | [], e, v => [(e, v)]
  | (k, w) :: rest, e, v =>
      if k = e then (e, v) :: rest else (k, w) :: recordSet rest e v

/-- JS `delete r[k]`: remove the (unique) matching key. -/
def recordDelete {α : Type} : List (String × α) → String → List (String × α)
  | [], _ => []
  | (k, w) :: rest, e => if k = e then rest else (k, w) :: recordDelete rest e

/-- Whitespace characters stripped by `String.prototype.trim` (the ones
relevant to the source's compose input). -/
def isJsWhitespace (c : Char) : Bool :=
  c = ' ' || c = '\t' || c = '\n' || c = '\r'

/-- JavaScript `s.trim()`: drop leading and trailing whitespace. -/
def strTrim (s : String) : String :=
  String.mk (((s.data.dropWhile isJsWhitespace).reverse.dropWhile
    isJsWhitespace).reverse)

/-- Decimal digits of `n` (most significant first), fuel-structured so
that it evaluates by kernel reduction; `natToDigitsAux (n+1) n` always
has enough fuel. -/
def natToDigitsAux : Nat → Nat → List Char
  | 0, _ => []
  | fuel + 1, n =>
      if n < 10 then [Nat.digitChar n]
      else natToDigitsAux fuel (n / 10) ++ [Nat.digitChar (n % 10)]

/-- Decimal representation of `n` as a list of digit characters, the way
JS stringifies the number in a template literal. -/
def natToDigits (n : Nat) : List Char := natToDigitsAux (n + 1) n

/-- The id template of the source: `` `msg-${t}` `` for a clock value
`t = Date.now()`. -/
def mkId (t : Nat) : String := String.mk ("msg-".data ++ natToDigits t)

/-- The body of `handleReaction` acting on one message's reactions
(source lines 1336-1348): toggle `uid`'s membership in `e`'s reactor
list, deleting the key when the filtered list becomes empty, and
creating the key when absent. -/
def toggleReactions (uid e : String) (r : ReactionMap) : ReactionMap :=
  match recordGet r e with
  | some s =>
      if uid ∈ s then
        let s' := s.filter (fun x => x != uid)
        if s' = [] then recordDelete r e else recordSet r e s'
      else recordSet r e (s ++ [uid])
  | none => recordSet r e [uid]

/-- The component state: the `useState` variables of `MessagingApp` that
the verified behavior touches (`currentUser`, `users`, `messages`,
`newMessage`, `typingUsers`). -/
structure AppState where
  currentUser : User
  users : List User
  messages : List Message
  newMessage : String
  typingUsers : List TypingUser
deriving DecidableEq

/-- `handleSendMessage` (source lines 1310-1323), with the call to
`Date.now()` / `new Date()` passed in as `now`: no-op unless the trimmed
compose input is non-empty, otherwise append the message and clear the
input. -/
def handleSendMessage (now : Nat) (st : AppState) : AppState :=
  if strTrim st.newMessage = "" then st
  else
    { st with
      messages := st.messages ++
        [{ id := mkId now, senderId := st.currentUser.id,
           content := st.newMessage, timestamp := now,
           reactions := [], isUser := true }],
      newMessage := "" }

/-- `handleReaction` (source lines 1332-1355): map over the messages,
toggling the current user's reaction on the message with the given id. -/
def handleReaction (m e : String) (st : AppState) : AppState :=
  { st with
    messages := st.messages.map (fun msg =>
      if msg.id = m then
        { msg with reactions := toggleReactions st.currentUser.id e msg.reactions }
      else msg) }

/-- `updateStatus` (source lines 1357-1360):
`setCurrentUser(prev => ({ ...prev, status }))`. -/
def updateStatus (s : UserStatus) (st : AppState) : AppState :=
  { st with currentUser := { st.currentUser with status := s } }

/-- The canned strings of the typing simulator's timeout callback. -/
def possibleMessages : List String :=
  ["Hello!", "How are you?", "Can we meet tomorrow?",
   "I have a question about the project.", "Thanks for your help!"]

/-- The interval body of `simulateTyping` (source lines 1260-1269):
`coin` is the outcome of `Math.random() > 0.5` and `pick` determines the
index `Math.floor(Math.random() * users.length)`; when the picked contact
is online and not the local user, insert a typing indicator unless one is
already present. -/
def simulateTypingTick (pick : Nat) (coin : Bool) (st : AppState) : AppState :=
  if coin then
    match st.users.get? (pick % st.users.length) with
    | some u =>
        if u.status = UserStatus.online ∧ u.id ≠ st.currentUser.id then
          { st with typingUsers :=
              if st.typingUsers.any (fun t => t.userId == u.id) then
                st.typingUsers
              else st.typingUsers ++ [{ userId := u.id, name := u.name }] }
        else st
    | none => st
  else st

/-- The timeout callback of `simulateTyping` (source lines 1272-1294):
remove the contact's typing indicator; then, when `sendCoin` (the outcome
of `Math.random() > 0.2`) holds, append a canned message from that
contact with `id = mkId now` and `timestamp = now`. -/
def simulateTypingStop (uid : String) (sendCoin : Bool) (textPick now : Nat)
    (st : AppState) : AppState :=
  { st with
    typingUsers := st.typingUsers.filter (fun t => t.userId != uid),
    messages :=
      if sendCoin then
        st.messages ++
          [{ id := mkId now, senderId := uid,
             content := (possibleMessages.get?
               (textPick % possibleMessages.length)).getD "",
             timestamp := now, reactions := [], isUser := false }]
      else st.messages }

/-- The app's startup roster `defaultUsers` (source lines 934-966). -/
def defaultUsers : List User :=
  [{ id := "user-2", name := "Jane Smith",
     avatar := "https://api.dicebear.com/9.x/pixel-art/svg?seed=John",
     status := .online },
   { id := "user-3", name := "Robert Johnson",
     avatar := "https://api.dicebear.com/9.x/lorelei/svg",
     status := .online },
   { id := "user-4", name := "Emily Davis",
     avatar := "https://api.dicebear.com/9.x/pixel-art/svg?seed=Jane",
     status := .busy },
   { id := "user-5", name := "Michael Wilson",
     avatar := "https://api.dicebear.com/9.x/pixel-art/svg?seed=John&hair=short01,short02,short03,short04,short05",
     status := .brb },
   { id := "user-6", name := "Sarah Brown",
     avatar := "https://api.dicebear.com/9.x/pixel-art/svg?seed=Jane&hair=long01,long02,long03,long04,long05",
     status := .offline, lastActive := some "2 hours ago" }]

/-- The clock value at component load, standing for the `Date.now()`
evaluated when `defaultMessages` is built. -/
def loadTime : Nat := 8000000

/-- The seeded conversation `defaultMessages` (source lines 968-1013);
timestamps are `loadTime` minus the source's offsets. -/
def defaultMessages : List Message :=
  [{ id := "msg-1", senderId := "user-2",
     content := "Hi there! How are you doing?",
     timestamp := loadTime - 3600000,
     reactions := [("👍", ["user-3"])] },
   { id := "msg-2", senderId := "user-1",
     content := "I'm good, thanks! How about you?",
     timestamp := loadTime - 3500000, reactions := [], isUser := true },
   { id := "msg-3", senderId := "user-2",
     content := "I'm doing well. Just working on that project we discussed.",
     timestamp := loadTime - 3400000,
     reactions := [("❤️", ["user-1", "user-4"])] },
   { id := "msg-4", senderId := "user-3",
     content := "Hey team, just checking in. Any updates?",
     timestamp := loadTime - 1800000, reactions := [] },
   { id := "msg-5", senderId := "user-1",
     content := "Yes, I just finished the design mockups. Will share shortly.",
     timestamp := loadTime - 1200000,
     reactions := [("👍", ["user-2", "user-3"])], isUser := true },
   { id := "msg-6", senderId := "user-4",
     content := "Looking forward to seeing them!",
     timestamp := loadTime - 900000, reactions := [] }]

/-- The initial component state: local user John Doe, the default
roster and conversation, an empty compose input and no typing
indicators. -/
def initialState : AppState :=
  { currentUser :=
      { id := "user-1", name := "John Doe",
        avatar := "https://api.dicebear.com/9.x/pixel-art/svg",
        status := .online },
    users := defaultUsers,
    messages := defaultMessages,
    newMessage := "",
    typingUsers := [] }

/-- The externally triggered transitions of the component: typing into
the compose box, sending, reacting, changing own status, an interval
tick of the typing simulator, and a simulator timeout firing. Random
draws and clock reads are the constructors' parameters. -/
inductive Event where
  | setInput (s : String)
  | send (now : Nat)
  | react (m e : String)
  | setStatus (s : UserStatus)
  | tick (pick : Nat) (coin : Bool)
  | stopTyping (uid : String) (sendCoin : Bool) (textPick now : Nat)
deriving DecidableEq

/-- Apply one event to the component state. -/
def applyEvent (st : AppState) (e : Event) : AppState :=
  match e with
  | .setInput s => { st with newMessage := s }
  | .send now => handleSendMessage now st
  | .react m emo => handleReaction m emo st
  | .setStatus s => updateStatus s st
  | .tick pick coin => simulateTypingTick pick coin st
  | .stopTyping uid sc tp now => simulateTypingStop uid sc tp now st

/-- The state reached from startup by a sequence of events. -/
def run (evs : List Event) : AppState := evs.foldl applyEvent initialState

/-- The `Date.now()` reading an event consumes when it appends a
message (a user send, or a simulator timeout that also sends). -/
def eventNow : Event → Option Nat
  | .send n => some n
  | .stopTyping _ _ _ n => some n
  | _ => none

/-- The clock readings of a trace, in order. -/
def nowsOf (evs : List Event) : List Nat := evs.filterMap eventNow

/-- The calendar day a millisecond timestamp falls on: `toDateString()`
of two `Date`s agree exactly when their day indices agree (the local
timezone shifts every timestamp by the same constant, which the model
absorbs into the timestamps). -/
def dayOf (t : Nat) : Nat := t / 86400000

/-- Stands for `date.toLocaleDateString()` on a date of day index `d`:
a day-determined string that is never "Today" or "Yesterday" (a real
locale date like "10/11/2026" never collides with those labels
either). -/
def localeDateString (d : Nat) : String := String.mk ('D' :: natToDigits d)

/-- `formatDate` (source lines 1201-1212), with the `new Date()` read
passed in as `now`: "Today" for the current calendar day, "Yesterday"
for exactly the previous one, else the locale date string. -/
def formatDate (now t : Nat) : String :=
  if dayOf t = dayOf now then "Today"
  else if dayOf t + 1 = dayOf now then "Yesterday"
  else localeDateString (dayOf t)

/-- One step of the `groupedMessages` reducer (source lines 1363-1370)
for an arbitrary label function `f`:
`if (!acc[dateKey]) acc[dateKey] = []; acc[dateKey].push(message)`. -/
def groupStep (f : Message → String) (acc : List (String × List Message))
    (m : Message) : List (String × List Message) :=
  match recordGet acc (f m) with
  | some g => recordSet acc (f m) (g ++ [m])
  | none => acc ++ [(f m, [m])]

/-- The `groupedMessages` reduce over an arbitrary label function. -/
def groupByDateF (f : Message → String) (msgs : List Message) :
    List (String × List Message) :=
  msgs.foldl (groupStep f) []

/-- `groupedMessages` (source lines 1362-1371): the messages grouped by
`formatDate` of their timestamp, into an insertion-ordered record. -/
def groupByDate (now : Nat) (msgs : List Message) :
    List (String × List Message) :=
  groupByDateF (fun m => formatDate now m.timestamp) msgs

/-- Modelled from the spec: grouping in order of first occurrence of
each label, keeping the input (insertion) order inside every group. -/
def groupSpec (f : Message → String) : List Message → List (String × List Message)
  | [] => []
  | m :: rest =>
      (f m, m :: rest.filter (fun x => f x == f m)) ::
        groupSpec f (rest.filter (fun x => f x != f m))
termination_by msgs => msgs.length
decreasing_by
  simp only [List.length_cons]
  exact Nat.lt_succ_of_le (List.length_filter_le _ _)

/-- A reactions record with no empty reactor lists (the invariant the
toggle maintains by deleting emptied keys). -/
abbrev noEmptyReactions (r : ReactionMap) : Prop := ∀ p ∈ r, p.2 ≠ []

/-- The spec's description of one reaction toggle from `r` to `r'`: all
other emoji keys read the same, and at `e` the local user was added if
absent, removed if present, the key disappearing when the removal
empties the list. -/
def toggledAt (uid e : String) (r r' : ReactionMap) : Prop :=
  (∀ e', e' ≠ e → recordGet r' e' = recordGet r e')
  ∧ (uid ∉ ((recordGet r e).getD []) →
      recordGet r' e = some (((recordGet r e).getD []) ++ [uid]))
  ∧ (uid ∈ ((recordGet r e).getD []) →
      ((((recordGet r e).getD []).filter (fun x => x != uid) = [] →
          recordGet r' e = none)
       ∧ (((recordGet r e).getD []).filter (fun x => x != uid) ≠ [] →
          recordGet r' e =
            some (((recordGet r e).getD []).filter (fun x => x != uid)))))

/-! ### Association-list record lemmas -/

lemma recordGet_recordSet_self {α : Type} (r : List (String × α)) (e : String)
    (v : α) : recordGet (recordSet r e v) e = some v := by
  induction r with
  | nil => simp [recordSet, recordGet]
  | cons p rest ih =>
      obtain ⟨k, w⟩ := p
      by_cases h : k = e
      · simp [recordSet, recordGet, h]
      · simp [recordSet, recordGet, h, ih]

lemma recordGet_recordSet_ne {α : Type} (r : List (String × α)) {e e' : String}
    (v : α) (h : e' ≠ e) :
    recordGet (recordSet r e v) e' = recordGet r e' := by
  induction r with
  | nil => simp [recordSet, recordGet, Ne.symm h]
  | cons p rest ih =>
      obtain ⟨k, w⟩ := p
      by_cases hk : k = e
      · subst hk
        simp [recordSet, recordGet, Ne.symm h]
      · simp [recordSet, recordGet, hk, ih]

lemma recordGet_recordDelete_ne {α : Type} (r : List (String × α))
    {e e' : String} (h : e' ≠ e) :
    recordGet (recordDelete r e) e' = recordGet r e' := by
  induction r with
  | nil => simp [recordDelete]
  | cons p rest ih =>
      obtain ⟨k, w⟩ := p
      by_cases hk : k = e
      · subst hk
        simp [recordDelete, recordGet, Ne.symm h]
      · simp [recordDelete, recordGet, hk, ih]

lemma recordGet_eq_none_of_not_mem {α : Type} (r : List (String × α))
    {e : String} (h : e ∉ r.map Prod.fst) : recordGet r e = none := by
  induction r with
  | nil => simp [recordGet]
  | cons p rest ih =>
      obtain ⟨k, w⟩ := p
      simp only [List.map_cons, List.mem_cons] at h
      push_neg at h
      rw [recordGet, if_neg (fun hh : k = e => h.1 hh.symm)]
      exact ih h.2

lemma recordGet_recordDelete_self {α : Type} (r : List (String × α))
    {e : String} (h : (r.map Prod.fst).Nodup) :
    recordGet (recordDelete r e) e = none := by
  induction r with
  | nil => simp [recordDelete, recordGet]
  | cons p rest ih =>
      obtain ⟨k, w⟩ := p
      simp only [List.map_cons, List.nodup_cons] at h
      by_cases hk : k = e
      · subst hk
        rw [recordDelete, if_pos rfl]
        exact recordGet_eq_none_of_not_mem rest h.1
      · simp [recordDelete, recordGet, hk, ih h.2]

lemma recordSet_absent {α : Type} (r : List (String × α)) {e : String} (v : α)
    (h : recordGet r e = none) : recordSet r e v = r ++ [(e, v)] := by
  induction r with
  | nil => simp [recordSet]
  | cons p rest ih =>
      obtain ⟨k, w⟩ := p
      by_cases hk : k = e
      · simp [recordGet, hk] at h
      · simp only [recordGet, if_neg hk] at h
        simp [recordSet, hk, ih h]

lemma recordGet_append_absent {α : Type} (r s : List (String × α))
    {e : String} (h : recordGet r e = none) :
    recordGet (r ++ s) e = recordGet s e := by
  induction r with
  | nil => simp
  | cons p rest ih =>
      obtain ⟨k, w⟩ := p
      by_cases hk : k = e
      · simp [recordGet, hk] at h
      · simp only [recordGet, if_neg hk] at h
        simp [recordGet, hk, ih h]

lemma recordDelete_append_absent {α : Type} (r : List (String × α))
    {e : String} (v : α) (h : recordGet r e = none) :
    recordDelete (r ++ [(e, v)]) e = r := by
  induction r with
  | nil => simp [recordDelete]
  | cons p rest ih =>
      obtain ⟨k, w⟩ := p
      by_cases hk : k = e
      · simp [recordGet, hk] at h
      · simp only [recordGet, if_neg hk] at h
        simp [recordDelete, hk, ih h]

lemma recordSet_recordSet {α : Type} (r : List (String × α)) (e : String)
    (v w : α) : recordSet (recordSet r e v) e w = recordSet r e w := by
  induction r with
  | nil => simp [recordSet]
  | cons p rest ih =>
      obtain ⟨k, u⟩ := p
      by_cases hk : k = e
      · simp [recordSet, hk]
      · simp [recordSet, hk, ih]

lemma recordSet_self_eq {α : Type} (r : List (String × α)) {e : String}
    {v : α} (h : recordGet r e = some v) : recordSet r e v = r := by
  induction r with
  | nil => simp [recordGet] at h
  | cons p rest ih =>
      obtain ⟨k, w⟩ := p
      by_cases hk : k = e
      · subst hk
        simp [recordGet] at h
        simp [recordSet, h]
      · simp only [recordGet, if_neg hk] at h
        simp [recordSet, hk, ih h]

lemma recordGet_mem {α : Type} (r : List (String × α)) {e : String}
    {v : α} (h : recordGet r e = some v) : (e, v) ∈ r := by
  induction r with
  | nil => simp [recordGet] at h
  | cons p rest ih =>
      obtain ⟨k, w⟩ := p
      by_cases hk : k = e
      · subst hk
        simp [recordGet] at h
        simp [h]
      · simp only [recordGet, if_neg hk] at h
        exact List.mem_cons_of_mem _ (ih h)

/-! ### Claim C1: sending a message -/

/-- C1. When the trimmed compose input is empty, `handleSendMessage`
changes nothing (store and input alike); when it is non-empty, exactly
one message is appended, attributed to the local user with
`isUser = true`, timestamp `now` and empty reactions, the earlier
messages are untouched, and the compose input is cleared. -/
theorem handleSendMessage_spec (st : AppState) (now : Nat) :
    (strTrim st.newMessage = "" → handleSendMessage now st = st)
  ∧ (strTrim st.newMessage ≠ "" →
      ∃ msg, (handleSendMessage now st).messages = st.messages ++ [msg]
        ∧ msg.senderId = st.currentUser.id
        ∧ msg.isUser = true
        ∧ msg.timestamp = now
        ∧ msg.reactions = []
        ∧ (handleSendMessage now st).newMessage = "") := by
  constructor
  · intro h
    simp [handleSendMessage, h]
  · intro h
    refine ⟨{ id := mkId now, senderId := st.currentUser.id,
              content := st.newMessage, timestamp := now,
              reactions := [], isUser := true }, ?_, rfl, rfl, rfl, rfl, ?_⟩ <;>
      simp [handleSendMessage, h]

/-- Witness for C1 at concrete inputs: a whitespace-only input is a
no-op, and sending "hi" appends one local-user message. -/
theorem handleSendMessage_spec_witness :
    (handleSendMessage 7 { initialState with newMessage := "   " } =
      { initialState with newMessage := "   " })
  ∧ (∃ msg,
      (handleSendMessage 7 { initialState with newMessage := "hi" }).messages =
        ({ initialState with newMessage := "hi" } : AppState).messages ++ [msg]
      ∧ msg.senderId =
          ({ initialState with newMessage := "hi" } : AppState).currentUser.id
      ∧ msg.isUser = true
      ∧ msg.timestamp = 7
      ∧ msg.reactions = []
      ∧ (handleSendMessage 7 { initialState with newMessage := "hi" }).newMessage
          = "") :=
  ⟨(handleSendMessage_spec { initialState with newMessage := "   " } 7).1
      (by decide),
   (handleSendMessage_spec { initialState with newMessage := "hi" } 7).2
      (by decide)⟩

/-! ### Claim C10: the stored content is the verbatim input -/

/-- C10. A non-empty (after trimming) compose input is stored verbatim:
the appended message's `content` is the original string, whitespace
included. -/
theorem handleSendMessage_verbatim (st : AppState) (now : Nat)
    (h : strTrim st.newMessage ≠ "") :
    ∃ msg, (handleSendMessage now st).messages = st.messages ++ [msg]
      ∧ msg.content = st.newMessage := by
  refine ⟨{ id := mkId now, senderId := st.currentUser.id,
            content := st.newMessage, timestamp := now,
            reactions := [], isUser := true }, ?_, rfl⟩
  simp [handleSendMessage, h]

/-- Witness for C10: sending "  hi  " stores "  hi  " itself. -/
theorem handleSendMessage_verbatim_witness :
    ∃ msg,
      (handleSendMessage 7 { initialState with newMessage := "  hi  " }).messages
        = ({ initialState with newMessage := "  hi  " } : AppState).messages ++ [msg]
      ∧ msg.content =
          ({ initialState with newMessage := "  hi  " } : AppState).newMessage :=
  handleSendMessage_verbatim { initialState with newMessage := "  hi  " } 7
    (by decide)

/-! ### Claim C6: updating own status is frame-exact -/

/-- C6. `updateStatus s` always succeeds, sets the local user's status
to `s`, and changes nothing else: the local user's id, name and avatar,
the whole roster, and the message store are untouched. -/
theorem updateStatus_spec (st : AppState) (s : UserStatus) :
    (updateStatus s st).currentUser.status = s
  ∧ (updateStatus s st).currentUser.id = st.currentUser.id
  ∧ (updateStatus s st).currentUser.name = st.currentUser.name
  ∧ (updateStatus s st).currentUser.avatar = st.currentUser.avatar
  ∧ (updateStatus s st).users = st.users
  ∧ (updateStatus s st).messages = st.messages :=
  ⟨rfl, rfl, rfl, rfl, rfl, rfl⟩

/-! ### Claims C2 and C7: reaction toggling -/

lemma toggledAt_toggle (uid e : String) (r : ReactionMap)
    (hn : (r.map Prod.fst).Nodup) :
    toggledAt uid e r (toggleReactions uid e r) := by
  unfold toggledAt
  cases hget : recordGet r e with
  | none =>
      refine ⟨?_, ?_, ?_⟩
      · intro e' hne
        simp [toggleReactions, hget, recordGet_recordSet_ne _ _ hne]
      · intro _
        simp [toggleReactions, hget, recordGet_recordSet_self]
      · intro hmem
        simp [hget] at hmem
  | some s =>
      by_cases hmem : uid ∈ s
      · by_cases hf : s.filter (fun x => x != uid) = []
        · refine ⟨?_, ?_, ?_⟩
          · intro e' hne
            simp [toggleReactions, hget, hmem, hf,
              recordGet_recordDelete_ne _ hne]
          · intro hab
            exact absurd hmem (by simpa [hget] using hab)
          · intro _
            refine ⟨fun _ => ?_, fun hf' => absurd (by simpa [hget] using hf) hf'⟩
            simp [toggleReactions, hget, hmem, hf,
              recordGet_recordDelete_self r hn]
        · refine ⟨?_, ?_, ?_⟩
          · intro e' hne
            simp [toggleReactions, hget, hmem, hf,
              recordGet_recordSet_ne _ _ hne]
          · intro hab
            exact absurd hmem (by simpa [hget] using hab)
          · intro _
            refine ⟨fun hf' => absurd hf' (by simpa [hget] using hf), fun _ => ?_⟩
            simp [toggleReactions, hget, hmem, hf, recordGet_recordSet_self]
      · refine ⟨?_, ?_, ?_⟩
        · intro e' hne
          simp [toggleReactions, hget, hmem, recordGet_recordSet_ne _ _ hne]
        · intro _
          simp [toggleReactions, hget, hmem, recordGet_recordSet_self]
        · intro hab
          exact absurd (by simpa [hget] using hab) hmem

/-- C2. `handleReaction m e` is a no-op when no message has id `m`;
otherwise it preserves the store's length and every message except those
with id `m`, and on a message with id `m` it leaves the id, sender,
content and timestamp alone and toggles the local user in the `e`
reactor set (adding when absent, removing when present, deleting the
key when the removal empties the set). The hypothesis is the JS
`Record` well-formedness: reaction keys are unique. -/
theorem handleReaction_spec (st : AppState) (m e : String)
    (hn : ∀ msg ∈ st.messages, (msg.reactions.map Prod.fst).Nodup) :
    ((∀ msg ∈ st.messages, msg.id ≠ m) → handleReaction m e st = st)
  ∧ (handleReaction m e st).messages.length = st.messages.length
  ∧ (∀ (i : Nat) (h : i < st.messages.length)
       (h' : i < (handleReaction m e st).messages.length),
      ((st.messages.get ⟨i, h⟩).id ≠ m →
        (handleReaction m e st).messages.get ⟨i, h'⟩ = st.messages.get ⟨i, h⟩)
    ∧ ((st.messages.get ⟨i, h⟩).id = m →
        ((handleReaction m e st).messages.get ⟨i, h'⟩).id =
            (st.messages.get ⟨i, h⟩).id
      ∧ ((handleReaction m e st).messages.get ⟨i, h'⟩).senderId =
            (st.messages.get ⟨i, h⟩).senderId
      ∧ ((handleReaction m e st).messages.get ⟨i, h'⟩).content =
            (st.messages.get ⟨i, h⟩).content
      ∧ ((handleReaction m e st).messages.get ⟨i, h'⟩).timestamp =
            (st.messages.get ⟨i, h⟩).timestamp
      ∧ toggledAt st.currentUser.id e (st.messages.get ⟨i, h⟩).reactions
          ((handleReaction m e st).messages.get ⟨i, h'⟩).reactions)) := by
  refine ⟨?_, ?_, ?_⟩
  · intro hall
    have hmap : st.messages.map (fun msg =>
        if msg.id = m then
          { msg with reactions :=
              toggleReactions st.currentUser.id e msg.reactions }
        else msg) = st.messages := by
      have := List.map_congr_left (l := st.messages)
        (f := fun msg =>
          if msg.id = m then
            { msg with reactions :=
                toggleReactions st.currentUser.id e msg.reactions }
          else msg) (g := id) (fun msg hmsg => by simp [hall msg hmsg])
      simpa using this
    show { st with messages := _ } = st
    rw [hmap]
  · simp [handleReaction]
  · intro i h h'
    have hget : (handleReaction m e st).messages.get ⟨i, h'⟩ =
        (fun msg =>
          if msg.id = m then
            { msg with reactions :=
                toggleReactions st.currentUser.id e msg.reactions }
          else msg) (st.messages.get ⟨i, h⟩) := by
      simp [handleReaction, List.get_eq_getElem]
    constructor
    · intro hne
      rw [hget]
      simp only [List.get_eq_getElem] at hne ⊢
      simp [hne]
    · intro heq
      rw [hget]
      simp only [heq, if_pos rfl]
      exact ⟨rfl, rfl, rfl, rfl,
        toggledAt_toggle _ _ _ (hn _ (st.messages.get_mem i h))⟩

/-- Witness for C2: toggling "👍" on seeded message `msg-1` keeps the
store length; the reaction-key uniqueness hypothesis holds on the
initial store. -/
theorem handleReaction_spec_witness :
    (∀ msg ∈ initialState.messages, (msg.reactions.map Prod.fst).Nodup)
  ∧ (handleReaction "msg-1" "👍" initialState).messages.length =
      initialState.messages.length :=
  ⟨by decide, (handleReaction_spec initialState "msg-1" "👍" (by decide)).2.1⟩

lemma toggle_toggle (uid e : String) (r : ReactionMap)
    (hne : noEmptyReactions r)
    (hmem : uid ∉ (recordGet r e).getD []) :
    toggleReactions uid e (toggleReactions uid e r) = r := by
  cases hget : recordGet r e with
  | none =>
      have h1 : toggleReactions uid e r = r ++ [(e, [uid])] := by
        simp [toggleReactions, hget, recordSet_absent r _ hget]
      have h2 : recordGet (r ++ [(e, [uid])]) e = some [uid] := by
        rw [recordGet_append_absent r _ hget]
        simp [recordGet]
      rw [h1]
      simp only [toggleReactions, h2, List.mem_singleton, if_pos rfl]
      have hfil : ([uid].filter (fun x => x != uid)) = [] := by simp
      simp only [hfil, if_pos rfl]
      exact recordDelete_append_absent r _ hget
  | some s =>
      have hs : uid ∉ s := by simpa [hget] using hmem
      have hsne : s ≠ [] := hne (e, s) (recordGet_mem r hget)
      have h1 : toggleReactions uid e r = recordSet r e (s ++ [uid]) := by
        simp [toggleReactions, hget, hs]
      have h2 : recordGet (recordSet r e (s ++ [uid])) e = some (s ++ [uid]) :=
        recordGet_recordSet_self r e _
      have hfil : (s ++ [uid]).filter (fun x => x != uid) = s := by
        rw [List.filter_append]
        have : s.filter (fun x => x != uid) = s :=
          List.filter_eq_self.mpr (fun x hx => by
            simp only [bne_iff_ne, ne_eq]
            exact fun hxx => hs (hxx ▸ hx))
        simp [this]
      rw [h1]
      have hm2 : uid ∈ s ++ [uid] := by simp
      simp only [toggleReactions, h2, hfil]
      rw [if_pos hm2, if_neg hsne, recordSet_recordSet]
      exact recordSet_self_eq r hget

/-- C7. Toggling the same reaction twice returns the store to its
original value, provided the message's reactions satisfy the maintained
invariant (no empty reactor lists) and the local user had not already
reacted with `e`. -/
theorem handleReaction_involutive (st : AppState) (m e : String)
    (h : ∀ msg ∈ st.messages, msg.id = m →
          noEmptyReactions msg.reactions ∧
          st.currentUser.id ∉ ((recordGet msg.reactions e).getD [])) :
    handleReaction m e (handleReaction m e st) = st := by
  obtain ⟨cu, us, ms, nm, tu⟩ := st
  simp only [handleReaction, List.map_map]
  congr 1
  have hpt : ∀ msg ∈ ms,
      ((fun msg =>
          if msg.id = m then
            { msg with reactions := toggleReactions cu.id e msg.reactions }
          else msg) ∘
        (fun msg =>
          if msg.id = m then
            { msg with reactions := toggleReactions cu.id e msg.reactions }
          else msg)) msg = id msg := by
    intro msg hmsg
    by_cases hid : msg.id = m
    · obtain ⟨h1, h2⟩ := h msg hmsg hid
      have hTT : toggleReactions cu.id e (toggleReactions cu.id e msg.reactions)
          = msg.reactions := toggle_toggle cu.id e msg.reactions h1 h2
      obtain ⟨mid, msid, mc, mt, mr, miu⟩ := msg
      dsimp only at hid hTT ⊢
      subst hid
      simp [Function.comp_apply, hTT]
    · simp [Function.comp_apply, hid]
  rw [List.map_congr_left hpt, List.map_id]

/-- Witness for C7: on the initial store, double-toggling "👍" on
`msg-1` (whose "👍" set is `["user-3"]`, without the local user) is the
identity. -/
theorem handleReaction_involutive_witness :
    handleReaction "msg-1" "👍" (handleReaction "msg-1" "👍" initialState) =
      initialState :=
  handleReaction_involutive initialState "msg-1" "👍" (by decide)

/-! ### Claims C4 and C8: typing-simulator invariants -/

/-- Invariant of every reachable state: the roster is the fixed default
roster, the local user keeps id "user-1", typing indicators are unique
per contact, and every indicator belongs to an online roster contact
other than the local user. -/
abbrev ReachInv (st : AppState) : Prop :=
  st.users = defaultUsers
  ∧ st.currentUser.id = "user-1"
  ∧ (st.typingUsers.map (fun t => t.userId)).Nodup
  ∧ ∀ tu ∈ st.typingUsers, ∃ u ∈ st.users,
      u.id = tu.userId ∧ u.status = UserStatus.online
      ∧ tu.userId ≠ st.currentUser.id

lemma reachInv_initial : ReachInv initialState := by decide

lemma reachInv_applyEvent (st : AppState) (e : Event) (h : ReachInv st) :
    ReachInv (applyEvent st e) := by
  obtain ⟨hu, hc, hnd, hinv⟩ := h
  cases e with
  | setInput s => exact ⟨hu, hc, hnd, hinv⟩
  | send now =>
      show ReachInv (handleSendMessage now st)
      unfold handleSendMessage
      split
      · exact ⟨hu, hc, hnd, hinv⟩
      · exact ⟨hu, hc, hnd, hinv⟩
  | react m emo => exact ⟨hu, hc, hnd, hinv⟩
  | setStatus s => exact ⟨hu, hc, hnd, hinv⟩
  | tick pick coin =>
      show ReachInv (simulateTypingTick pick coin st)
      cases coin with
      | false => exact ⟨hu, hc, hnd, hinv⟩
      | true =>
          cases hg : st.users.get? (pick % st.users.length) with
          | none => simp only [simulateTypingTick, if_true, hg]; exact ⟨hu, hc, hnd, hinv⟩
          | some u =>
              by_cases hok : u.status = UserStatus.online ∧ u.id ≠ st.currentUser.id
              · by_cases hany : st.typingUsers.any (fun t => t.userId == u.id)
                · simp only [simulateTypingTick, if_true, hg, if_pos hok, if_pos hany]
                  exact ⟨hu, hc, hnd, hinv⟩
                · simp only [simulateTypingTick, if_true, hg, if_pos hok,
                    if_neg hany]
                  have hnotin : u.id ∉ st.typingUsers.map (fun t => t.userId) := by
                    intro hmem
                    rcases List.mem_map.mp hmem with ⟨t, ht, htid⟩
                    exact hany (List.any_eq_true.mpr ⟨t, ht, by simp [htid]⟩)
                  refine ⟨hu, hc, ?_, ?_⟩
                  · simp only [List.map_append, List.map_cons, List.map_nil]
                    exact List.Nodup.append hnd (List.nodup_singleton _)
                      (by simpa using hnotin)
                  · intro tu htu
                    rcases List.mem_append.mp htu with hl | hr
                    · exact hinv tu hl
                    · have : tu = ⟨u.id, u.name⟩ := by simpa using hr
                      subst this
                      exact ⟨u, List.get?_mem hg, rfl, hok.1, hok.2⟩
              · simp only [simulateTypingTick, if_true, hg, if_neg hok]
                exact ⟨hu, hc, hnd, hinv⟩
  | stopTyping uid sc tp now =>
      refine ⟨hu, hc, ?_, ?_⟩
      · exact hnd.sublist (List.Sublist.map _ (List.filter_sublist _))
      · intro tu htu
        exact hinv tu (List.mem_of_mem_filter htu)

lemma reachInv_foldl : ∀ (evs : List Event) (st : AppState), ReachInv st →
    ReachInv (List.foldl applyEvent st evs) := by
  intro evs
  induction evs with
  | nil => intro st h; exact h
  | cons e rest ih => intro st h; exact ih _ (reachInv_applyEvent st e h)

lemma reachInv_run (evs : List Event) : ReachInv (run evs) :=
  reachInv_foldl evs initialState reachInv_initial

lemma tick_typing_shape (st : AppState) (pick : Nat) (coin : Bool) :
    (simulateTypingTick pick coin st).typingUsers = st.typingUsers
  ∨ ∃ tu, (simulateTypingTick pick coin st).typingUsers =
        st.typingUsers ++ [tu]
      ∧ tu.userId ∉ st.typingUsers.map (fun t => t.userId) := by
  cases coin with
  | false => left; rfl
  | true =>
      cases hg : st.users.get? (pick % st.users.length) with
      | none =>
          left
          simp only [simulateTypingTick, if_true, hg]
      | some u =>
          by_cases hok : u.status = UserStatus.online ∧ u.id ≠ st.currentUser.id
          · by_cases hany : st.typingUsers.any (fun t => t.userId == u.id)
            · left
              simp only [simulateTypingTick, if_true, hg, if_pos hok,
                if_pos hany]
            · right
              refine ⟨⟨u.id, u.name⟩, ?_, ?_⟩
              · simp only [simulateTypingTick, if_true, hg, if_pos hok,
                  if_neg hany]
              · intro hmem
                rcases List.mem_map.mp hmem with ⟨t, ht, htid⟩
                exact hany (List.any_eq_true.mpr ⟨t, ht, by simp [htid]⟩)
          · left
            simp only [simulateTypingTick, if_true, hg, if_neg hok]

lemma length_filter_userId_ne (l : List TypingUser) (uid : String)
    (h : (l.map (fun t => t.userId)).Nodup) :
    l.length ≤ (l.filter (fun t => t.userId != uid)).length + 1 := by
  induction l with
  | nil => simp
  | cons t rest ih =>
      simp only [List.map_cons, List.nodup_cons] at h
      by_cases ht : t.userId = uid
      · have hrest : rest.filter (fun x => x.userId != uid) = rest :=
          List.filter_eq_self.mpr (fun x hx => by
            simp only [bne_iff_ne, ne_eq]
            intro hxx
            exact h.1 (ht ▸ hxx ▸ List.mem_map_of_mem _ hx))
        simp [List.filter_cons, ht, hrest]
      · have := ih h.2
        simp only [List.filter_cons, List.length_cons]
        have hbt : (t.userId != uid) = true := by simpa using ht
        rw [if_pos hbt]
        simpa using Nat.succ_le_succ this

/-- C4. In every reachable state the typing-indicator list holds at
most one entry per contact id; a tick either leaves the list unchanged
(in particular, a start for a contact already typing is an idempotent
no-op) or appends one indicator for a contact not yet present; and a
stop callback removes at most one entry. -/
theorem typingIndicators_spec (evs : List Event) :
    ((run evs).typingUsers.map (fun t => t.userId)).Nodup
  ∧ (∀ (pick : Nat) (coin : Bool),
      (applyEvent (run evs) (Event.tick pick coin)).typingUsers =
          (run evs).typingUsers
      ∨ ∃ tu, (applyEvent (run evs) (Event.tick pick coin)).typingUsers =
            (run evs).typingUsers ++ [tu]
          ∧ tu.userId ∉ (run evs).typingUsers.map (fun t => t.userId))
  ∧ (∀ (uid : String) (sc : Bool) (tp now : Nat),
      (run evs).typingUsers.length ≤
        (applyEvent (run evs)
          (Event.stopTyping uid sc tp now)).typingUsers.length + 1) := by
  refine ⟨(reachInv_run evs).2.2.1, ?_, ?_⟩
  · intro pick coin
    exact tick_typing_shape (run evs) pick coin
  · intro uid sc tp now
    exact length_filter_userId_ne (run evs).typingUsers uid
      (reachInv_run evs).2.2.1

/-- C8. Every typing indicator in any reachable state belongs to a
roster contact whose status is online and who is not the local user;
since roster statuses and the local user's id never change, this is
exactly the condition checked when the indicator was inserted. -/
theorem simulateTyping_online_only (evs : List Event) :
    ∀ tu ∈ (run evs).typingUsers, ∃ u ∈ (run evs).users,
      u.id = tu.userId ∧ u.status = UserStatus.online
      ∧ tu.userId ≠ (run evs).currentUser.id :=
  (reachInv_run evs).2.2.2

/-- Witness for C8: after one tick picking roster index 0, Jane Smith
("user-2") is typing, and she is online and distinct from the local
user. -/
theorem simulateTyping_online_only_witness :
    ∃ u ∈ (run [Event.tick 0 true]).users,
      u.id = ({ userId := "user-2", name := "Jane Smith" } : TypingUser).userId
      ∧ u.status = UserStatus.online
      ∧ ({ userId := "user-2", name := "Jane Smith" } : TypingUser).userId ≠
          (run [Event.tick 0 true]).currentUser.id :=
  simulateTyping_online_only [Event.tick 0 true]
    { userId := "user-2", name := "Jane Smith" } (by decide)

/-! ### Claim C3: date grouping -/

lemma groupStep_cons (f : Message → String) (k : String) (g : List Message)
    (acc : List (String × List Message)) (m : Message) :
    groupStep f ((k, g) :: acc) m =
      if f m = k then (k, g ++ [m]) :: acc
      else (k, g) :: groupStep f acc m := by
  by_cases hk : f m = k
  · rw [if_pos hk]
    simp [groupStep, recordGet, recordSet, hk.symm]
  · have hk' : ¬ k = f m := fun h => hk h.symm
    rw [if_neg hk]
    cases hr : recordGet acc (f m) with
    | some g' => simp [groupStep, recordGet, hk', hr, recordSet]
    | none => simp [groupStep, recordGet, hk', hr, recordSet]

lemma groupFold_cons (f : Message → String) (k : String) :
    ∀ (msgs g : List Message) (acc : List (String × List Message)),
      List.foldl (groupStep f) ((k, g) :: acc) msgs =
        (k, g ++ msgs.filter (fun m => f m == k)) ::
          List.foldl (groupStep f) acc (msgs.filter (fun m => f m != k)) := by
  intro msgs
  induction msgs with
  | nil => intro g acc; simp
  | cons m rest ih =>
      intro g acc
      by_cases hk : f m = k
      · rw [List.foldl_cons, groupStep_cons, if_pos hk, ih]
        simp [List.filter_cons, hk, List.append_assoc]
      · rw [List.foldl_cons, groupStep_cons, if_neg hk, ih]
        simp [List.filter_cons, hk, List.foldl_cons]

lemma groupByDateF_eq_groupSpec (f : Message → String) :
    ∀ (n : Nat) (msgs : List Message), msgs.length ≤ n →
      groupByDateF f msgs = groupSpec f msgs := by
  intro n
  induction n with
  | zero =>
      intro msgs h
      have hnil : msgs = [] := List.length_eq_zero.mp (Nat.le_zero.mp h)
      subst hnil
      simp [groupByDateF, groupSpec]
  | succ n ih =>
      intro msgs h
      cases msgs with
      | nil => simp [groupByDateF, groupSpec]
      | cons m rest =>
          have h1 : groupStep f [] m = [(f m, [m])] := by
            simp [groupStep, recordGet]
          have hlen : (rest.filter (fun x => f x != f m)).length ≤ n :=
            le_trans (List.length_filter_le _ _)
              (Nat.succ_le_succ_iff.mp (by simpa using h))
          rw [show groupByDateF f (m :: rest) =
                List.foldl (groupStep f) [(f m, [m])] rest from by
              rw [groupByDateF, List.foldl_cons, h1],
            groupFold_cons f (f m) rest [m] []]
          rw [show List.foldl (groupStep f) []
                (rest.filter (fun x => f x != f m)) =
              groupByDateF f (rest.filter (fun x => f x != f m)) from rfl]
          rw [ih _ hlen]
          conv_rhs => rw [groupSpec]
          simp

/-- C3. The rendered grouping equals the first-seen-order grouping: each
message is labelled "Today" when its timestamp shares the current
calendar day, "Yesterday" when it falls on exactly the previous day and
a locale date string otherwise; groups are listed in order of first
occurrence of their label (never re-sorted), and each group keeps its
messages in input order (`groupSpec` produces exactly the first-seen
groups with in-order filtered members). -/
theorem groupedMessages_spec (now : Nat) (msgs : List Message) :
    groupByDate now msgs =
      groupSpec (fun m => formatDate now m.timestamp) msgs
  ∧ (∀ t, dayOf t = dayOf now → formatDate now t = "Today")
  ∧ (∀ t, dayOf t ≠ dayOf now → dayOf t + 1 = dayOf now →
      formatDate now t = "Yesterday")
  ∧ (∀ t, dayOf t ≠ dayOf now → dayOf t + 1 ≠ dayOf now →
      formatDate now t = localeDateString (dayOf t)) := by
  refine ⟨groupByDateF_eq_groupSpec _ msgs.length msgs le_rfl, ?_, ?_, ?_⟩
  · intro t ht
    simp [formatDate, ht]
  · intro t ht ht'
    simp [formatDate, ht, ht']
  · intro t ht ht'
    simp [formatDate, ht, ht']

/-- Witness for C3 at a concrete clock and message list: a two-days-ago
message, a yesterday message and two today messages group into three
first-seen-ordered groups, and each label case of `formatDate` fires. -/
theorem groupedMessages_spec_witness :
    groupByDate 180000000
      [{ id := "a", senderId := "user-2", content := "x",
         timestamp := 5, reactions := [] },
       { id := "b", senderId := "user-2", content := "y",
         timestamp := 172800005, reactions := [] },
       { id := "c", senderId := "user-1", content := "z",
         timestamp := 100000000, reactions := [], isUser := true }] =
      groupSpec (fun m => formatDate 180000000 m.timestamp)
        [{ id := "a", senderId := "user-2", content := "x",
           timestamp := 5, reactions := [] },
         { id := "b", senderId := "user-2", content := "y",
           timestamp := 172800005, reactions := [] },
         { id := "c", senderId := "user-1", content := "z",
           timestamp := 100000000, reactions := [], isUser := true }]
  ∧ formatDate 180000000 172800005 = "Today"
  ∧ formatDate 180000000 100000000 = "Yesterday"
  ∧ formatDate 180000000 5 = localeDateString 0 :=
  ⟨(groupedMessages_spec 180000000 _).1,
   (groupedMessages_spec 180000000 []).2.1 172800005 (by decide),
   (groupedMessages_spec 180000000 []).2.2.1 100000000 (by decide) (by decide),
   (groupedMessages_spec 180000000 []).2.2.2 5 (by decide) (by decide)⟩

/-! ### Claim C5: freshness of message ids -/

lemma natToDigitsAux_congr : ∀ (n f₁ f₂ : Nat), n < f₁ → n < f₂ →
    natToDigitsAux f₁ n = natToDigitsAux f₂ n := by
  intro n
  induction n using Nat.strong_induction_on with
  | _ n ih =>
      intro f₁ f₂ h₁ h₂
      cases f₁ with
      | zero => exact absurd h₁ (Nat.not_lt_zero n)
      | succ g₁ =>
          cases f₂ with
          | zero => exact absurd h₂ (Nat.not_lt_zero n)
          | succ g₂ =>
              by_cases h10 : n < 10
              · simp [natToDigitsAux, h10]
              · simp only [natToDigitsAux, if_neg h10]
                congr 1
                have hn0 : 0 < n :=
                  lt_of_lt_of_le (by norm_num) (Nat.not_lt.mp h10)
                have hdiv : n / 10 < n := Nat.div_lt_self hn0 (by norm_num)
                exact ih _ hdiv _ _
                  (lt_of_lt_of_le hdiv (Nat.lt_succ_iff.mp h₁))
                  (lt_of_lt_of_le hdiv (Nat.lt_succ_iff.mp h₂))

lemma natToDigits_eq (n : Nat) :
    natToDigits n = if n < 10 then [Nat.digitChar n]
      else natToDigits (n / 10) ++ [Nat.digitChar (n % 10)] := by
  by_cases h10 : n < 10
  · simp [natToDigits, natToDigitsAux, h10]
  · have hn0 : 0 < n := lt_of_lt_of_le (by norm_num) (Nat.not_lt.mp h10)
    have hdiv : n / 10 < n := Nat.div_lt_self hn0 (by norm_num)
    rw [if_neg h10]
    show natToDigitsAux (n + 1) n = _
    simp only [natToDigitsAux, if_neg h10]
    congr 1
    exact natToDigitsAux_congr _ _ _ hdiv (Nat.lt_succ_self _)

lemma natToDigits_ne_nil (n : Nat) : natToDigits n ≠ [] := by
  rw [natToDigits_eq]
  by_cases h10 : n < 10 <;> simp [h10]

lemma digitChar_inj_fin : ∀ (a b : Fin 10),
    Nat.digitChar a = Nat.digitChar b → a = b := by decide

lemma natToDigits_inj : ∀ (a b : Nat), natToDigits a = natToDigits b → a = b := by
  intro a
  induction a using Nat.strong_induction_on with
  | _ a ih =>
      intro b h
      have ha := natToDigits_eq a
      have hb := natToDigits_eq b
      rw [ha, hb] at h
      by_cases h10a : a < 10 <;> by_cases h10b : b < 10
      · rw [if_pos h10a, if_pos h10b] at h
        have hd : Nat.digitChar a = Nat.digitChar b := by simpa using h
        simpa using congrArg Fin.val
          (digitChar_inj_fin ⟨a, h10a⟩ ⟨b, h10b⟩ hd)
      · rw [if_pos h10a, if_neg h10b] at h
        have hlen := congrArg List.length h
        simp at hlen
        exact absurd hlen (natToDigits_ne_nil _)
      · rw [if_neg h10a, if_pos h10b] at h
        have hlen := congrArg List.length h
        simp at hlen
        exact absurd hlen (natToDigits_ne_nil _)
      · rw [if_neg h10a, if_neg h10b] at h
        have hlen := congrArg List.length h
        simp only [List.length_append, List.length_cons, List.length_nil] at hlen
        obtain ⟨h1, h2⟩ := List.append_inj h (by omega)
        have ha0 : 0 < a := lt_of_lt_of_le (by norm_num) (Nat.not_lt.mp h10a)
        have hdiva : a / 10 = b / 10 :=
          ih (a / 10) (Nat.div_lt_self ha0 (by norm_num)) _ h1
        have hd : Nat.digitChar (a % 10) = Nat.digitChar (b % 10) := by
          simpa using h2
        have hmod : a % 10 = b % 10 := by
          simpa using congrArg Fin.val
            (digitChar_inj_fin ⟨a % 10, Nat.mod_lt _ (by norm_num)⟩
              ⟨b % 10, Nat.mod_lt _ (by norm_num)⟩ hd)
        omega

lemma mkId_inj : Function.Injective mkId := by
  intro a b h
  have hdata : "msg-".data ++ natToDigits a = "msg-".data ++ natToDigits b := by
    have := congrArg String.data h
    simpa [mkId] using this
  exact natToDigits_inj a b (List.append_cancel_left hdata)

lemma handleReaction_map_id (st : AppState) (m e : String) :
    (handleReaction m e st).messages.map (fun msg => msg.id) =
      st.messages.map (fun msg => msg.id) := by
  simp only [handleReaction, List.map_map]
  apply List.map_congr_left
  intro msg _
  by_cases hid : msg.id = m <;> simp [hid, Function.comp_apply]

lemma simulateTypingTick_messages (pick : Nat) (coin : Bool) (st : AppState) :
    (simulateTypingTick pick coin st).messages = st.messages := by
  cases coin with
  | false => rfl
  | true =>
      cases hg : st.users.get? (pick % st.users.length) with
      | none => simp only [simulateTypingTick, if_true, hg]
      | some u =>
          by_cases hok : u.status = UserStatus.online ∧ u.id ≠ st.currentUser.id
          · by_cases hany : st.typingUsers.any (fun t => t.userId == u.id)
            · simp only [simulateTypingTick, if_true, hg, if_pos hok,
                if_pos hany]
            · simp only [simulateTypingTick, if_true, hg, if_pos hok,
                if_neg hany]
          · simp only [simulateTypingTick, if_true, hg, if_neg hok]

lemma ids_fresh_aux :
    ∀ (evs : List Event) (st : AppState) (ts : List Nat),
      st.messages.map (fun msg => msg.id) = ts.map mkId →
      ts.Pairwise (· < ·) →
      (∀ t ∈ ts, ∀ n ∈ nowsOf evs, t < n) →
      (nowsOf evs).Pairwise (· < ·) →
      ∃ ts' : List Nat,
        (List.foldl applyEvent st evs).messages.map (fun msg => msg.id) =
          ts'.map mkId ∧ ts'.Pairwise (· < ·) := by
  intro evs
  induction evs with
  | nil =>
      intro st ts h1 h2 _ _
      exact ⟨ts, h1, h2⟩
  | cons e rest ih =>
      intro st ts h1 h2 hbound hchain
      rw [List.foldl_cons]
      cases e with
      | setInput s => exact ih _ ts h1 h2 hbound hchain
      | react m emo =>
          exact ih _ ts ((handleReaction_map_id st m emo).trans h1) h2
            hbound hchain
      | setStatus s => exact ih _ ts h1 h2 hbound hchain
      | tick pick coin =>
          refine ih _ ts ?_ h2 hbound hchain
          rw [show (applyEvent st (Event.tick pick coin)).messages =
              st.messages from simulateTypingTick_messages pick coin st]
          exact h1
      | send now =>
          have hrest : nowsOf (Event.send now :: rest) = now :: nowsOf rest := by
            simp [nowsOf, List.filterMap_cons, eventNow]
          rw [hrest] at hbound hchain
          by_cases hemp : strTrim st.newMessage = ""
          · refine ih _ ts ?_ h2 ?_ (List.pairwise_cons.mp hchain).2
            · rw [show applyEvent st (Event.send now) = st from by
                simp [applyEvent, handleSendMessage, hemp]]
              exact h1
            · exact fun t ht n hn => hbound t ht n (List.mem_cons_of_mem _ hn)
          · have hmsgs : (applyEvent st (Event.send now)).messages =
                st.messages ++
                  [{ id := mkId now, senderId := st.currentUser.id,
                     content := st.newMessage, timestamp := now,
                     reactions := [], isUser := true }] := by
              simp [applyEvent, handleSendMessage, hemp]
            refine ih _ (ts ++ [now]) ?_ ?_ ?_ (List.pairwise_cons.mp hchain).2
            · rw [hmsgs]
              simp [h1]
            · refine List.pairwise_append.mpr
                ⟨h2, List.pairwise_singleton _ _, ?_⟩
              intro t ht n hn
              rw [List.mem_singleton] at hn
              rw [hn]
              exact hbound t ht now (List.mem_cons_self _ _)
            · intro t ht n hn
              rcases List.mem_append.mp ht with h | h
              · exact hbound t h n (List.mem_cons_of_mem _ hn)
              · rw [List.mem_singleton] at h
                subst h
                exact (List.pairwise_cons.mp hchain).1 n hn
      | stopTyping uid sc tp nw =>
          have hrest : nowsOf (Event.stopTyping uid sc tp nw :: rest) =
              nw :: nowsOf rest := by
            simp [nowsOf, List.filterMap_cons, eventNow]
          rw [hrest] at hbound hchain
          cases sc with
          | false =>
              refine ih _ ts ?_ h2 ?_ (List.pairwise_cons.mp hchain).2
              · exact h1
              · exact fun t ht n hn => hbound t ht n (List.mem_cons_of_mem _ hn)
          | true =>
              refine ih _ (ts ++ [nw]) ?_ ?_ ?_ (List.pairwise_cons.mp hchain).2
              · show ((st.messages ++ _).map (fun msg => msg.id)) = _
                simp [h1]
              · refine List.pairwise_append.mpr
                  ⟨h2, List.pairwise_singleton _ _, ?_⟩
                intro t ht n hn
                rw [List.mem_singleton] at hn
                rw [hn]
                exact hbound t ht nw (List.mem_cons_self _ _)
              · intro t ht n hn
                rcases List.mem_append.mp ht with h | h
                · exact hbound t h n (List.mem_cons_of_mem _ hn)
                · rw [List.mem_singleton] at h
                  subst h
                  exact (List.pairwise_cons.mp hchain).1 n hn

/-- Counterexample to C5 as stated: two sends happening at the same
`Date.now()` reading (100) both get id "msg-100", so a reachable store
has duplicate ids. -/
theorem message_ids_cex :
    ¬ (((run [Event.setInput "hi", Event.send 100, Event.setInput "yo",
          Event.send 100]).messages.map (fun msg => msg.id)).Nodup) := by
  decide

/-- C5 as amended: ids are timestamp-based (`msg-` followed by the
`Date.now()` reading), so provided the clock readings of the trace are
strictly increasing and past the seeded ids `msg-1` … `msg-6` (as real
millisecond clocks are), every reachable store's ids are generated from
a strictly increasing list of numbers and are pairwise distinct. When
two appends share one clock reading the ids collide
(`message_ids_cex`). -/
theorem message_ids_fresh (evs : List Event)
    (hchain : (nowsOf evs).Pairwise (· < ·))
    (hgt : ∀ n ∈ nowsOf evs, 6 < n) :
    (∃ ts : List Nat,
        (run evs).messages.map (fun msg => msg.id) = ts.map mkId
        ∧ ts.Pairwise (· < ·))
  ∧ ((run evs).messages.map (fun msg => msg.id)).Nodup := by
  have base : initialState.messages.map (fun msg => msg.id) =
      ([1, 2, 3, 4, 5, 6] : List Nat).map mkId := by decide
  have hp : ([1, 2, 3, 4, 5, 6] : List Nat).Pairwise (· < ·) := by decide
  have hb : ∀ t ∈ ([1, 2, 3, 4, 5, 6] : List Nat), ∀ n ∈ nowsOf evs, t < n := by
    intro t ht n hn
    have h6 : t ≤ 6 := by
      simp only [List.mem_cons, List.not_mem_nil, or_false] at ht
      rcases ht with rfl | rfl | rfl | rfl | rfl | rfl <;> norm_num
    exact lt_of_le_of_lt h6 (hgt n hn)
  obtain ⟨ts', hmap, hpair⟩ :=
    ids_fresh_aux evs initialState _ base hp hb hchain
  refine ⟨⟨ts', hmap, hpair⟩, ?_⟩
  rw [show run evs = List.foldl applyEvent initialState evs from rfl, hmap]
  have hnd : ts'.Nodup := hpair.imp fun h => ne_of_lt h
  exact hnd.map mkId_inj

/-- Witness for the amended C5: a trace with strictly increasing clock
readings 7 then 8 (one user send, one simulator send) satisfies the
hypotheses and yields pairwise-distinct ids. -/
theorem message_ids_fresh_witness :
    ((nowsOf [Event.setInput "hi", Event.send 7,
        Event.stopTyping "user-2" true 0 8]).Pairwise (· < ·))
  ∧ (∀ n ∈ nowsOf [Event.setInput "hi", Event.send 7,
        Event.stopTyping "user-2" true 0 8], 6 < n)
  ∧ ((run [Event.setInput "hi", Event.send 7,
        Event.stopTyping "user-2" true 0 8]).messages.map
          (fun msg => msg.id)).Nodup :=
  ⟨by decide, by decide,
   (message_ids_fresh [Event.setInput "hi", Event.send 7,
      Event.stopTyping "user-2" true 0 8] (by decide) (by decide)).2⟩

/-! ### Claim C9: the status enumeration -/

/-- Counterexample to C9 as stated: the seeded roster contains Michael
Wilson ("user-5") whose status literal is "brb", which is none of
online, offline, busy, away. -/
theorem status_enum_cex :
    ¬ (∀ u ∈ initialState.users,
        statusString u.status = "online" ∨ statusString u.status = "offline"
      ∨ statusString u.status = "busy" ∨ statusString u.status = "away") := by
  decide

/-- C9 as amended: the code's status union is
`'online' | 'offline' | 'busy' | 'brb'` — its fourth literal is "brb"
("be right back"), not "away". In every reachable state each roster
contact's and the local user's status lies in this four-value set, and
`updateStatus` accepts exactly values of this union type. -/
theorem status_enum_spec (evs : List Event) :
    (∀ u ∈ (run evs).users,
      statusString u.status ∈ (["online", "offline", "busy", "brb"] : List String))
  ∧ statusString (run evs).currentUser.status ∈
      (["online", "offline", "busy", "brb"] : List String)
  ∧ (∀ s : UserStatus,
      statusString s ∈ (["online", "offline", "busy", "brb"] : List String)) := by
  have hall : ∀ s : UserStatus,
      statusString s ∈ (["online", "offline", "busy", "brb"] : List String) := by
    intro s
    cases s <;> simp [statusString]
  exact ⟨fun u _ => hall u.status, hall _, hall⟩

/-- Witness for the amended C9: Jane Smith is in the reachable roster
after setting the local status to busy, and her status string is in the
allowed set; so is the local user's. -/
theorem status_enum_spec_witness :
    statusString
      ({ id := "user-2", name := "Jane Smith",
         avatar := "https://api.dicebear.com/9.x/pixel-art/svg?seed=John",
         status := UserStatus.online } : User).status ∈
      (["online", "offline", "busy", "brb"] : List String)
  ∧ statusString
      (run [Event.setStatus UserStatus.busy]).currentUser.status ∈
      (["online", "offline", "busy", "brb"] : List String) :=
  ⟨(status_enum_spec [Event.setStatus UserStatus.busy]).1
      { id := "user-2", name := "Jane Smith",
        avatar := "https://api.dicebear.com/9.x/pixel-art/svg?seed=John",
        status := UserStatus.online } (by decide),
   (status_enum_spec [Event.setStatus UserStatus.busy]).2.1⟩

end ChatPro
